import Mathlib

/-!
Shallow embedding of the response-ingestion layer of `src/src/response.rs`
(the `ureq` HTTP client's `Response` type), together with proofs about it.

Rust strings (`&str`, always valid UTF-8) are modelled as `List Char`.
Rust byte indices (as used by `str::find`, slicing, and `str::len`) are
modelled faithfully via per-character UTF-8 byte sizes (`Char.utf8Size`):
`utf8Len`, `utf8Take`, `utf8Drop`, `strFindByte`.  Machine integers are
`Nat` with explicit bounds where the code checks them (`u16` parse bound
65535, `usize` parse bound 2^64 - 1).  Fallible code returns `Except`;
the `panic` in `into_reader` is modelled by an `Option` result.
-/

namespace Ureq

/-- Model of `std::io::ErrorKind` (only the variants this file uses). -/
inductive ErrorKind where
  | connectionAborted
  | invalidInput
  | invalidData
  | timedOut
  | other
deriving DecidableEq

/-- Model of `std::io::Error`: a kind plus its message. -/
structure IoError where
  kind : ErrorKind
  msg : String
deriving DecidableEq

/-- Modelled from the spec: `crate::error::Error` is not under `src/`; per
§7 the parser surfaces a `BadStatus` condition, and io errors are carried
through (`read_next_line(...)?` converts `io::Error` into `Error`). -/
inductive Error where
  | badStatus
  | io : IoError → Error
deriving DecidableEq

/-- UTF-8 byte length of a Rust `&str`, as `str::len` computes it. -/
def utf8Len (s : List Char) : Nat :=
  (s.map Char.utf8Size).sum

/-- Characters remaining after byte position `n`, as Rust slicing `&s[n..]`
computes it (all uses in the source are at character boundaries). -/
def utf8Drop : Nat → List Char → List Char
  | _, [] => []
  | n, c :: rest => if n = 0 then c :: rest else utf8Drop (n - c.utf8Size) rest

/-- Characters up to byte position `n`, as Rust slicing `&s[0..n]` computes
it (all uses in the source are at character boundaries). -/
def utf8Take : Nat → List Char → List Char
  | _, [] => []
  | n, c :: rest => if n = 0 then [] else c :: utf8Take (n - c.utf8Size) rest

/-- Byte index of the first occurrence of `c`, as Rust `str::find(char)`
returns it. -/
def strFindByte (c : Char) : List Char → Option Nat
  | [] => none
  | x :: rest => if x = c then some 0 else (strFindByte c rest).map (· + x.utf8Size)

/-- Unicode `White_Space` test, as Rust `char::is_whitespace` implements it
(used by `str::trim`). -/
def isRustWhitespace (c : Char) : Bool :=
  [9, 10, 11, 12, 13, 32, 0x85, 0xA0, 0x1680, 0x2028, 0x2029, 0x202F, 0x205F,
      0x3000].contains c.toNat
    || (decide (0x2000 ≤ c.toNat) && decide (c.toNat ≤ 0x200A))

/-- Model of Rust `str::trim_start`. -/
def rustTrimStart (s : List Char) : List Char :=
  s.dropWhile isRustWhitespace

/-- Model of Rust `str::trim_end`. -/
def rustTrimEnd (s : List Char) : List Char :=
  (s.reverse.dropWhile isRustWhitespace).reverse

/-- Model of Rust `str::trim`. -/
def rustTrim (s : List Char) : List Char :=
  rustTrimEnd (rustTrimStart s)

/-- ASCII lower-casing of one character, as Rust `eq_ignore_ascii_case`
lowers each byte (only `A`-`Z` are affected). -/
def asciiToLower (c : Char) : Char :=
  if 'A' ≤ c ∧ c ≤ 'Z' then Char.ofNat (c.toNat + 32) else c

/-- Model of Rust `str::eq_ignore_ascii_case`. -/
def eqIgnoreAsciiCase : List Char → List Char → Bool
  | [], [] => true
  | x :: xs, y :: ys => (asciiToLower x == asciiToLower y) && eqIgnoreAsciiCase xs ys
  | _, _ => false

/-- Model of Rust `str::splitn(sep)`'s split at the first separator:
`some (before, after)` when `sep` occurs, `none` otherwise. -/
def splitFirst (sep : Char) : List Char → Option (List Char × List Char)
  | [] => none
  | c :: rest =>
    if c = sep then some ([], rest)
    else (splitFirst sep rest).map (fun p => (c :: p.1, p.2))

/-- Model of Rust `str::splitn(n, sep)`: at most `n` pieces, the last piece
keeping any further separators. -/
def splitn (sep : Char) : Nat → List Char → List (List Char)
  | 0, _ => []
  | 1, s => [s]
  | n + 2, s =>
    match splitFirst sep s with
    | none => [s]
    | some (a, b) => a :: splitn sep (n + 1) b

/-- Value of a decimal digit string (helper for the integer parses below). -/
def parseNatDigits (s : List Char) : Nat :=
  s.foldl (fun a c => a * 10 + (c.toNat - 48)) 0

/-- Model of Rust `str::parse::<uN>()` for an unsigned type with maximum
value `bound`: an optional leading `+`, then one or more ASCII digits, and
the value must not overflow the type. -/
def parseUIntRadix10 (bound : Nat) (s : List Char) : Option Nat :=
  let digits := match s with
    | c :: rest => if c = '+' then rest else c :: rest
    | [] => []
  if digits.isEmpty then none
  else if digits.all Char.isDigit then
    let v := parseNatDigits digits
    if v ≤ bound then some v else none
  else none

/-- Model of Rust `str::parse::<u16>()`. -/
def parseU16 (s : List Char) : Option Nat :=
  parseUIntRadix10 65535 s

/-- Model of Rust `str::parse::<usize>()` (64-bit target). -/
def parseUsize (s : List Char) : Option Nat :=
  parseUIntRadix10 (2 ^ 64 - 1) s

/-- Decimal digit character (helper for the decimal formatting below). -/
def digitChar : Nat → Char
  | 0 => '0'
  | 1 => '1'
  | 2 => '2'
  | 3 => '3'
  | 4 => '4'
  | 5 => '5'
  | 6 => '6'
  | 7 => '7'
  | 8 => '8'
  | _ => '9'

/-- Fuelled decimal formatting recursion (the fuel only makes the
recursion structural; `natToDigits` supplies enough). -/
def natToDigitsAux : Nat → Nat → List Char
  | 0, _ => []
  | fuel + 1, n =>
    if n < 10 then [digitChar n] else natToDigitsAux fuel (n / 10) ++ [digitChar (n % 10)]

/-- Model of Rust `format!("{}", n)` for an unsigned integer: standard
decimal notation, no sign, no leading zeros. -/
def natToDigits (n : Nat) : List Char :=
  natToDigitsAux (n + 1) n

/-- Modelled from the spec: `crate::header::Header` is not under `src/`.
Per §3 it is an opaque name/value pair with case-insensitive name
comparison; per §4.1 its parser splits a line on the first colon and
trims the value. -/
structure Header where
  name : List Char
  value : List Char
deriving DecidableEq

/-- Modelled from the spec: case-insensitive name comparison of
`crate::header::Header::is_name` (§3, §4.1). -/
def Header.is_name (h : Header) (name : List Char) : Bool :=
  eqIgnoreAsciiCase h.name name

/-- Modelled from the spec: `crate::header::Header`'s `FromStr` (§4.1):
split on the first colon, trim the value; a line without a colon fails. -/
def Header.ofLine (line : List Char) : Option Header :=
  match splitFirst ':' line with
  | none => none
  | some (n, v) => some ⟨n, rustTrim v⟩

/-- Modelled from the spec: `crate::unit::Unit` is not under `src/`.  Per
§6 the request context supplies whether the method was HEAD and the
optional deadline (modelled as an abstract instant). -/
structure RequestUnit where
  is_head : Bool
  deadline : Option Nat
deriving DecidableEq

/-- Model of `ResponseStatusIndex`: byte indices into `status_line` where
the HTTP-version token and the status-code token end. -/
structure ResponseStatusIndex where
  http_version : Nat
  response_code : Nat
deriving DecidableEq

/-- Model of `Response`.  The `stream` field holds the remaining bytes of
the attached body source (a `Stream::Cursor` in every construction route
under `src/`); `none` models an unattached stream. -/
structure Response where
  url : Option (List Char)
  status_line : List Char
  index : ResponseStatusIndex
  status : Nat
  headers : List Header
  unit : Option RequestUnit
  stream : Option (List Char)
  deadline : Option Nat
deriving DecidableEq

/-- Model of `Response::http_version`: `&self.status_line[0..self.index.http_version]`. -/
def Response.http_version (r : Response) : List Char :=
  utf8Take r.index.http_version r.status_line

/-- Model of `Response::status_text`:
`&self.status_line[self.index.response_code + 1..].trim()`. -/
def Response.status_text (r : Response) : List Char :=
  rustTrim (utf8Drop (r.index.response_code + 1) r.status_line)

/-- Model of `Response::header`: first header whose name matches
case-insensitively, its value. -/
def Response.header (r : Response) (name : List Char) : Option (List Char) :=
  (r.headers.find? (fun h => h.is_name name)).map Header.value

/-- Model of `Response::ok`: `self.status >= 200 && self.status <= 299`. -/
def Response.ok (r : Response) : Bool :=
  decide (200 ≤ r.status) && decide (r.status ≤ 299)

/-- Model of `Response::redirect`: `self.status >= 300 && self.status <= 399`. -/
def Response.redirect (r : Response) : Bool :=
  decide (300 ≤ r.status) && decide (r.status ≤ 399)

/-- Model of `Response::client_error`: `self.status >= 400 && self.status <= 499`. -/
def Response.client_error (r : Response) : Bool :=
  decide (400 ≤ r.status) && decide (r.status ≤ 499)

/-- Model of `Response::server_error`: `self.status >= 500 && self.status <= 599`. -/
def Response.server_error (r : Response) : Bool :=
  decide (500 ≤ r.status) && decide (r.status ≤ 599)

/-- Model of `Response::error`: `self.client_error() || self.server_error()`. -/
def Response.error (r : Response) : Bool :=
  r.client_error || r.server_error

/-- Model of `charset_from_content_type`: locate the first `;`, then the
first `=` after it, and trim what follows; default `utf-8` otherwise. -/
def charset_from_content_type (header : Option (List Char)) : List Char :=
  ((header.bind fun h =>
    (strFindByte ';' h).bind fun semi =>
      (strFindByte '=' (utf8Drop (semi + 1) h)).map fun equal =>
        rustTrim (utf8Drop (semi + equal + 2) h)).getD "utf-8".toList)

/-- Model of `Response::charset`: `charset_from_content_type(self.header("content-type"))`. -/
def Response.charset (r : Response) : List Char :=
  charset_from_content_type (r.header "content-type".toList)

/-- Model of `LimitedRead<R>`: an underlying reader state plus the declared
limit and the number of bytes already delivered. -/
structure LimitedRead (σ : Type) where
  reader : σ
  limit : Nat
  position : Nat
deriving DecidableEq

/-- Model of `LimitedRead::new`. -/
def LimitedRead.new (reader : σ) (limit : Nat) : LimitedRead σ :=
  ⟨reader, limit, 0⟩

/-- Model of `<LimitedRead as Read>::read`.  The underlying reader is a
function `rd` from a state and a requested byte count to the bytes read
(the returned `Ok(amount)` is the chunk's length) and the next state;
`bufLen` is the caller's buffer length. -/
def LimitedRead.read (rd : σ → Nat → Except IoError (List Char × σ))
    (lr : LimitedRead σ) (bufLen : Nat) : Except IoError (List Char × LimitedRead σ) :=
  let left := lr.limit - lr.position
  if left = 0 then .ok ([], lr)
  else
    let fromLen := if left < bufLen then left else bufLen
    match rd lr.reader fromLen with
    | .ok ([], _) =>
      .error ⟨.invalidData, "response body closed before all bytes were read"⟩
    | .ok (data, s) => .ok (data, ⟨s, lr.limit, lr.position + data.length⟩)
    | .error e => .error e

/-- Model of `<Cursor<Vec<u8>> as Read>::read`: the state is the remaining
contents; a read delivers `min(bufLen, remaining)` bytes. -/
def Cursor.read (data : List Char) (bufLen : Nat) : Except IoError (List Char × List Char) :=
  .ok (data.take bufLen, data.drop bufLen)

/-- Loop body of `read_next_line`: accumulate bytes until a LF preceded by
a CR, popping the CR.  (The UTF-8 re-validation of the line cannot fail in
this character-level model, where inputs are already valid text.) -/
def read_next_line_core (buf : List Char) (prevCr : Bool) :
    List Char → Except IoError (List Char × List Char)
  | [] => .error ⟨.connectionAborted, "Unexpected EOF"⟩
  | c :: rest =>
    if c == '\n' && prevCr then .ok (buf.dropLast, rest)
    else read_next_line_core (buf ++ [c]) (c == '\r') rest

/-- Model of `read_next_line`: returns the line (without its CRLF) and the
input remaining after it. -/
def read_next_line (s : List Char) : Except IoError (List Char × List Char) :=
  read_next_line_core [] false s

/-- Model of `parse_status_line`: split into at most three space-separated
fields, check the version and code token lengths, parse the code as `u16`. -/
def parse_status_line (line : List Char) : Except Error (ResponseStatusIndex × Nat) :=
  match splitn ' ' 3 line with
  | [] => .error .badStatus
  | http_version :: rest =>
    if utf8Len http_version < 5 then .error .badStatus
    else
      let index1 := utf8Len http_version
      match rest with
      | [] => .error .badStatus
      | status :: _ =>
        if utf8Len status < 2 then .error .badStatus
        else
          let index2 := index1 + utf8Len status
          match parseU16 status with
          | none => .error .badStatus
          | some code => .ok (⟨index1, index2⟩, code)

/-- Header loop of `do_from_read`: read lines until an empty one; a line
that parses as a header is kept, others are skipped.  The fuel only makes
the recursion structural; callers supply more than the loop can consume
(each iteration consumes at least two characters). -/
def parseHeaders : Nat → List Char → Except Error (List Header × List Char)
  | 0, _ => .error (.io ⟨.other, "insufficient fuel"⟩)
  | fuel + 1, input =>
    match read_next_line input with
    | .error e => .error (.io e)
    | .ok (line, rest) =>
      if line.isEmpty then .ok ([], rest)
      else
        match Header.ofLine line with
        | some h =>
          match parseHeaders fuel rest with
          | .ok (hs, r) => .ok (h :: hs, r)
          | .error e => .error e
        | none => parseHeaders fuel rest

/-- Model of `Response::do_from_read`: parse the status line and the header
block; also returns the unconsumed remainder of the input (the position the
Rust reader is left at). -/
def do_from_read (s : List Char) : Except Error (Response × List Char) :=
  match read_next_line s with
  | .error e => .error (.io e)
  | .ok (status_line, rest) =>
    match parse_status_line status_line with
    | .error e => .error e
    | .ok (index, status) =>
      match parseHeaders (rest.length + 1) rest with
      | .error e => .error e
      | .ok (headers, rest') =>
        .ok ({ url := none, status_line := status_line, index := index, status := status,
               headers := headers, unit := none, stream := none, deadline := none }, rest')

/-- Model of `set_stream`: give the url, unit and stream to the response
(the deadline is copied from the unit when one is present). -/
def set_stream (resp : Response) (url : List Char) (unit : Option RequestUnit)
    (stream : List Char) : Response :=
  { resp with
    url := some url
    deadline := match unit with
      | some u => u.deadline
      | none => resp.deadline
    unit := unit
    stream := some stream }

/-- Model of `<Response as FromStr>::from_str`: parse, then attach a cursor
over the remaining bytes as the stream. -/
def Response.from_str (s : List Char) : Except Error Response :=
  match do_from_read s with
  | .error e => .error e
  | .ok (resp, rest) => .ok (set_stream resp [] none rest)

/-- Model of `Response::new`: format `HTTP/1.1 {status} {status_text}\r\n\r\n{body}\n`
and parse it through `from_str`. -/
def Response.new (status : Nat) (status_text : List Char) (body : List Char) :
    Except Error Response :=
  Response.from_str
    ("HTTP/1.1 ".toList ++ natToDigits status ++ [' '] ++ status_text
      ++ ['\r', '\n', '\r', '\n'] ++ body ++ ['\n'])

/-- The three terminal body-framing strategies `Response::into_reader`
returns: the chunk decoder, a `LimitedRead` at a given length, or the raw
stream until close. -/
inductive BodyStrategy where
  | chunked
  | limited : Nat → BodyStrategy
  | untilClose
deriving DecidableEq

/-- Framing selection of `Response::into_reader`, verbatim from the source:
`is_http10`, `is_close`, `has_no_body`, `is_chunked`, `use_chunked` and
`limit_bytes` computed from the response, then the final `match`. -/
def Response.into_reader_strategy (r : Response) : BodyStrategy :=
  let is_http10 := eqIgnoreAsciiCase r.http_version "HTTP/1.0".toList
  let is_close := ((r.header "connection".toList).map
    (fun c => eqIgnoreAsciiCase c "close".toList)).getD false
  let is_head := (r.unit.map RequestUnit.is_head).getD false
  let has_no_body := is_head || (r.status == 204 || r.status == 304)
  let is_chunked := ((r.header "transfer-encoding".toList).map
    (fun enc => !enc.isEmpty)).getD false
  let use_chunked := !is_http10 && !has_no_body && is_chunked
  let limit_bytes : Option Nat :=
    if is_http10 || is_close then none
    else if has_no_body then some 0
    else (r.header "content-length".toList).bind parseUsize
  match use_chunked, limit_bytes with
  | true, _ => .chunked
  | false, some len => .limited len
  | false, none => .untilClose

/-- Model of `Response::into_reader`: `none` models the
`self.stream.expect("No reader in response?!")` panic; otherwise the chosen
strategy together with the stream contents it wraps. -/
def Response.into_reader (r : Response) : Option (BodyStrategy × List Char) :=
  match r.stream with
  | none => none
  | some data => some (r.into_reader_strategy, data)

/-- Hexadecimal digit value (helper for the chunk-size lines). -/
def hexVal (c : Char) : Option Nat :=
  if c.isDigit then some (c.toNat - 48)
  else if 'a' ≤ c ∧ c ≤ 'f' then some (c.toNat - 87)
  else if 'A' ≤ c ∧ c ≤ 'F' then some (c.toNat - 55)
  else none

/-- Leading hexadecimal number of a chunk-size line. -/
def parseHexNat (s : List Char) : Option Nat :=
  let ds := s.takeWhile (fun c => (hexVal c).isSome)
  if ds.isEmpty then none
  else some (ds.foldl (fun a c => a * 16 + (hexVal c).getD 0) 0)

/-- Modelled from the spec: the external `chunked_transfer::Decoder` is not
under `src/`.  Per §4.2/§8 it unwraps `size\r\ndata\r\n` chunks until a
zero-size chunk (e.g. `3\r\nhel\r\nb\r\nlo world!!!\r\n0\r\n\r\n` yields
`hello world!!!`).  The fuel only makes the recursion structural. -/
def chunkedDecode : Nat → List Char → Except IoError (List Char)
  | 0, _ => .error ⟨.other, "insufficient fuel"⟩
  | fuel + 1, data =>
    match read_next_line data with
    | .error e => .error e
    | .ok (sizeLine, rest) =>
      match parseHexNat sizeLine with
      | none => .error ⟨.invalidData, "bad chunk size"⟩
      | some 0 => .ok []
      | some n =>
        match rest.drop n with
        | '\r' :: '\n' :: more => (chunkedDecode fuel more).map (rest.take n ++ ·)
        | _ => .error ⟨.invalidData, "missing chunk terminator"⟩

/-- Drain loop of `Read::read_to_end`: call `rd` with a fresh buffer until
it delivers zero bytes (done) or fails.  The fuel only makes the recursion
structural; callers supply more iterations than any drain can take. -/
def readToEnd (rd : σ → Nat → Except IoError (List Char × σ)) :
    Nat → σ → Except IoError (List Char)
  | 0, _ => .error ⟨.other, "insufficient fuel"⟩
  | fuel + 1, s =>
    match rd s 8192 with
    | .error e => .error e
    | .ok ([], _) => .ok []
    | .ok (chunk, s') => (readToEnd rd fuel s').map (chunk ++ ·)

/-- Reading the wrapped body stream to its end, per strategy: the chunk
decoder, `read_to_end` over `LimitedRead::new(cursor, n)`, or the raw
cursor (which `read_to_end` drains completely without error). -/
def readAll : BodyStrategy → List Char → Except IoError (List Char)
  | .chunked, data => chunkedDecode (data.length + 1) data
  | .limited n, data =>
    readToEnd (LimitedRead.read Cursor.read) (n + data.length + 2) (LimitedRead.new data n)
  | .untilClose, data => .ok data

/-- Model of `Response::into_string`: read the body reader to its end and
decode.  On this character-level model (valid text, and the constructions
under `src/` default to utf-8) the lossy utf-8 decode is the identity.
`none` models the `into_reader` panic on a stream-less response. -/
def Response.into_string (r : Response) : Option (Except IoError (List Char)) :=
  r.into_reader.map (fun p => readAll p.1 p.2)

/-- An always-empty underlying reader (a source that is already at its
end-of-stream), used to instantiate the `LimitedRead` theorems. -/
def nullReader (_ : Unit) (_ : Nat) : Except IoError (List Char × Unit) :=
  .ok ([], ())

/-- A cursor read never delivers more bytes than were requested. -/
theorem cursor_read_le (data : List Char) (n : Nat) (out s' : List Char)
    (h : Cursor.read data n = .ok (out, s')) : out.length ≤ n := by
  simp only [Cursor.read, Except.ok.injEq, Prod.mk.injEq] at h
  rw [← h.1, List.length_take]
  omega

/-- C7: the status-class predicates characterize the documented inclusive
ranges, are pairwise exclusive (so at most one holds; none holds outside
200-599), and `error` holds exactly when `client_error` or `server_error`
does. -/
theorem status_class_partition (r : Response) :
    (r.ok = true ↔ 200 ≤ r.status ∧ r.status ≤ 299)
    ∧ (r.redirect = true ↔ 300 ≤ r.status ∧ r.status ≤ 399)
    ∧ (r.client_error = true ↔ 400 ≤ r.status ∧ r.status ≤ 499)
    ∧ (r.server_error = true ↔ 500 ≤ r.status ∧ r.status ≤ 599)
    ∧ ¬(r.ok = true ∧ r.redirect = true)
    ∧ ¬(r.ok = true ∧ r.client_error = true)
    ∧ ¬(r.ok = true ∧ r.server_error = true)
    ∧ ¬(r.redirect = true ∧ r.client_error = true)
    ∧ ¬(r.redirect = true ∧ r.server_error = true)
    ∧ ¬(r.client_error = true ∧ r.server_error = true)
    ∧ (r.error = true ↔ (r.client_error = true ∨ r.server_error = true)) := by
  simp only [Response.ok, Response.redirect, Response.client_error, Response.server_error,
    Response.error, Bool.and_eq_true, Bool.or_eq_true, decide_eq_true_eq]
  refine ⟨?_, ?_, ?_, ?_, ?_, ?_, ?_, ?_, ?_, ?_, ?_⟩ <;>
    first
      | trivial
      | (intro h; omega)

/-- C4: a `LimitedRead` whose budget is not yet exhausted fails with the
`InvalidData` framing error as soon as the underlying source delivers zero
bytes, whatever buffer size the caller passed. -/
theorem limited_read_premature_close {σ : Type}
    (rd : σ → Nat → Except IoError (List Char × σ)) (lr : LimitedRead σ) (bufLen : Nat)
    (s' : σ) (hpos : lr.position < lr.limit)
    (hzero : rd lr.reader
      (if lr.limit - lr.position < bufLen then lr.limit - lr.position else bufLen)
        = .ok ([], s')) :
    LimitedRead.read rd lr bufLen =
      .error ⟨.invalidData, "response body closed before all bytes were read"⟩ := by
  have hleft : ¬(lr.limit - lr.position = 0) := by omega
  unfold LimitedRead.read
  simp only [hleft, if_false, hzero]

/-- C4 witness: an exhausted source under a partially-delivered limit of 5
fails with the framing error even when only 1 byte was requested. -/
theorem limited_read_premature_close_inst :
    LimitedRead.read nullReader ⟨(), 5, 2⟩ 1 =
      .error ⟨.invalidData, "response body closed before all bytes were read"⟩ :=
  limited_read_premature_close nullReader ⟨(), 5, 2⟩ 1 () (by decide) rfl

/-- A successful `LimitedRead` read leaves the limit unchanged, advances
the position by exactly the bytes delivered, and delivers at most
`min(requested, limit - position)` bytes (shared case analysis for the
`LimitedRead` theorems). -/
theorem limited_read_ok_spec {σ : Type}
    (rd : σ → Nat → Except IoError (List Char × σ)) (lr : LimitedRead σ) (bufLen : Nat)
    (out : List Char) (lr' : LimitedRead σ)
    (hwb : ∀ s n o s2, rd s n = .ok (o, s2) → o.length ≤ n)
    (h : LimitedRead.read rd lr bufLen = .ok (out, lr')) :
    lr'.limit = lr.limit ∧ lr'.position = lr.position + out.length
    ∧ out.length ≤ min bufLen (lr.limit - lr.position) := by
  unfold LimitedRead.read at h
  by_cases h0 : lr.limit - lr.position = 0
  · simp only [h0, if_true, Except.ok.injEq, Prod.mk.injEq] at h
    rw [← h.1, ← h.2]
    simp
  · simp only [h0, if_false] at h
    cases hrd : rd lr.reader
        (if lr.limit - lr.position < bufLen then lr.limit - lr.position else bufLen) with
    | error e => rw [hrd] at h; exact absurd h (by simp)
    | ok p =>
      obtain ⟨p1, p2⟩ := p
      rw [hrd] at h
      have hle := hwb _ _ _ _ hrd
      cases p1 with
      | nil => simp at h
      | cons c cs =>
        simp only [Except.ok.injEq, Prod.mk.injEq] at h
        rw [← h.1, ← h.2]
        refine ⟨rfl, rfl, ?_⟩
        by_cases hlt : lr.limit - lr.position < bufLen <;>
          simp only [hlt, if_true, if_false] at hle <;> omega

/-- C8: every `LimitedRead` read delivers at most
`min(requested, limit - position)` bytes (for an underlying reader that
honors its buffer), and once the budget is exhausted every read returns
`Ok(0)` at once — uniformly in the underlying reader, which is therefore
not consulted. -/
theorem limited_read_clips_and_ends {σ : Type}
    (rd : σ → Nat → Except IoError (List Char × σ)) (lr : LimitedRead σ) (bufLen : Nat)
    (hwb : ∀ s n out s', rd s n = .ok (out, s') → out.length ≤ n) :
    (∀ out lr', LimitedRead.read rd lr bufLen = .ok (out, lr') →
      out.length ≤ min bufLen (lr.limit - lr.position))
    ∧ (lr.position = lr.limit → LimitedRead.read rd lr bufLen = .ok ([], lr)) := by
  constructor
  · intro out lr' h
    exact (limited_read_ok_spec rd lr bufLen out lr' hwb h).2.2
  · intro hfull
    unfold LimitedRead.read
    simp [hfull]

/-- C8 witness: with the budget of 2 already delivered, a read over a
cursor that still holds bytes returns `Ok(0)` without touching it. -/
theorem limited_read_clips_and_ends_inst :
    LimitedRead.read Cursor.read ⟨"abc".toList, 2, 2⟩ 10 = .ok ([], ⟨"abc".toList, 2, 2⟩) :=
  (limited_read_clips_and_ends Cursor.read ⟨"abc".toList, 2, 2⟩ 10 cursor_read_le).2 rfl

/-- C9: `position ≤ limit` holds at construction and is preserved by every
successful read, each of which advances `position` by at most
`limit - position`, so the budget `limit - position` never underflows. -/
theorem limited_read_invariant {σ : Type}
    (rd : σ → Nat → Except IoError (List Char × σ)) (lr lr' : LimitedRead σ)
    (bufLen : Nat) (out : List Char)
    (hwb : ∀ s n o s2, rd s n = .ok (o, s2) → o.length ≤ n)
    (hinv : lr.position ≤ lr.limit)
    (hread : LimitedRead.read rd lr bufLen = .ok (out, lr')) :
    (LimitedRead.new lr.reader lr.limit).position ≤ (LimitedRead.new lr.reader lr.limit).limit
    ∧ lr'.position ≤ lr'.limit ∧ out.length ≤ lr.limit - lr.position := by
  obtain ⟨hl, hp, hle⟩ := limited_read_ok_spec rd lr bufLen out lr' hwb hread
  refine ⟨by simp [LimitedRead.new], ?_, ?_⟩ <;> omega

/-- C9 witness: a concrete successful read (2 bytes of a 3-byte cursor
under limit 2) preserves the invariant. -/
theorem limited_read_invariant_inst :
    (LimitedRead.new "abc".toList 2).position ≤ (LimitedRead.new "abc".toList 2).limit
    ∧ (⟨"c".toList, 2, 2⟩ : LimitedRead (List Char)).position
        ≤ (⟨"c".toList, 2, 2⟩ : LimitedRead (List Char)).limit
    ∧ ("ab".toList).length ≤ 2 - 0 :=
  limited_read_invariant Cursor.read ⟨"abc".toList, 2, 0⟩ ⟨"c".toList, 2, 2⟩ 10 "ab".toList
    cursor_read_le (by decide) (by rfl)

/-- Whether `pat` occurs as a contiguous subsequence of a string (used to
state that a `Content-Type` value lacks a `charset=` parameter). -/
def containsSeq (pat : List Char) : List Char → Bool
  | [] => pat.isEmpty
  | c :: rest => pat.isPrefixOf (c :: rest) || containsSeq pat rest

/-- C6 (amended): `charset` falls back to the default `utf-8` when the
`Content-Type` header is absent, contains no `;`, or contains no `=` after
its first `;`.  (Merely lacking a parameter *named* `charset` does not
suffice: the extraction takes whatever follows the first `=` after the
first `;`.) -/
theorem charset_default_utf8 (h : Option (List Char))
    (hyp : ∀ s, h = some s → ∀ semi, strFindByte ';' s = some semi →
      strFindByte '=' (utf8Drop (semi + 1) s) = none) :
    charset_from_content_type h = "utf-8".toList := by
  cases h with
  | none => rfl
  | some s =>
    unfold charset_from_content_type
    cases hsemi : strFindByte ';' s with
    | none => simp [hsemi]
    | some semi => simp [hsemi, hyp s rfl semi hsemi]

/-- C6 witness: a `Content-Type` with no `;` yields the default charset. -/
theorem charset_default_utf8_inst :
    charset_from_content_type (some "text/html".toList) = "utf-8".toList :=
  charset_default_utf8 (some "text/html".toList) (by
    intro s hs semi hsemi
    rw [Option.some.injEq] at hs
    subst hs
    rw [show strFindByte ';' "text/html".toList = none from rfl] at hsemi
    exact Option.noConfusion hsemi)

/-- C6 counterexample: `text/html; foo=bar` lacks any `charset=` parameter,
yet `charset_from_content_type` returns `bar`, not the default `utf-8`. -/
theorem charset_non_charset_param :
    containsSeq "charset=".toList "text/html; foo=bar".toList = false
    ∧ charset_from_content_type (some "text/html; foo=bar".toList) = "bar".toList
    ∧ "bar".toList ≠ "utf-8".toList :=
  ⟨rfl, rfl, by decide⟩

/-- A 204 response carrying `Connection: close`, exactly as `from_str`
parses it (C1's counterexample input). -/
def resp204close : Response :=
  { url := some [], status_line := "HTTP/1.1 204 No Content".toList,
    index := ⟨8, 11⟩, status := 204,
    headers := [⟨"Connection".toList, "close".toList⟩],
    unit := none, stream := some "leftover".toList, deadline := none }

/-- C1 counterexample: for a non-HTTP/1.0 response with status 204 that
also carries `Connection: close`, `into_reader` does NOT select the
fixed-at-zero strategy — `is_close` is tested before `has_no_body` in the
`limit_bytes` chain — and reading the body yields the whole remaining
stream rather than zero bytes. -/
theorem bodiless_with_close_not_zero :
    Response.from_str
        "HTTP/1.1 204 No Content\r\nConnection: close\r\n\r\nleftover".toList
      = .ok resp204close
    ∧ eqIgnoreAsciiCase resp204close.http_version "HTTP/1.0".toList = false
    ∧ resp204close.status = 204
    ∧ resp204close.header "connection".toList = some "close".toList
    ∧ resp204close.into_reader_strategy ≠ .limited 0
    ∧ resp204close.into_string = some (.ok "leftover".toList) :=
  ⟨rfl, rfl, rfl, rfl, by decide, rfl⟩

/-- C1 (amended): for a response that is not HTTP/1.0, whose request was
HEAD or whose status is 204 or 304, and which does NOT carry a
`Connection` header equal (ASCII-case-insensitively) to `close`,
`into_reader` selects the fixed-at-zero strategy and reading the returned
body yields zero bytes. -/
theorem bodiless_without_close_reads_zero (r : Response) (d : List Char)
    (hver : eqIgnoreAsciiCase r.http_version "HTTP/1.0".toList = false)
    (hnobody : (r.unit.map RequestUnit.is_head).getD false = true
      ∨ r.status = 204 ∨ r.status = 304)
    (hclose : ∀ v, r.header "connection".toList = some v →
      eqIgnoreAsciiCase v "close".toList = false)
    (hstream : r.stream = some d) :
    r.into_reader_strategy = .limited 0 ∧ r.into_string = some (.ok []) := by
  have hnb : ((r.unit.map RequestUnit.is_head).getD false
      || (r.status == 204 || r.status == 304)) = true := by
    rcases hnobody with h | h | h <;> simp [h]
  have hcl : ((r.header "connection".toList).map
      (fun c => eqIgnoreAsciiCase c "close".toList)).getD false = false := by
    cases hc : r.header "connection".toList with
    | none => rfl
    | some v =>
      show eqIgnoreAsciiCase v "close".toList = false
      exact hclose v hc
  have hstrat : r.into_reader_strategy = .limited 0 := by
    simp only [Response.into_reader_strategy]
    rw [hver, hcl, hnb]
    simp
  refine ⟨hstrat, ?_⟩
  unfold Response.into_string Response.into_reader
  rw [hstream]
  dsimp only
  rw [hstrat]
  refine congrArg some ?_
  show readToEnd (LimitedRead.read Cursor.read) (0 + d.length + 2) (LimitedRead.new d 0)
    = .ok []
  have hfuel : 0 + d.length + 2 = (0 + d.length + 1) + 1 := rfl
  rw [hfuel]
  unfold readToEnd
  simp [LimitedRead.read, LimitedRead.new]

/-- A 204 response without a `Connection` header (C1's witness input). -/
def resp204 : Response :=
  { url := some [], status_line := "HTTP/1.1 204 No Content".toList,
    index := ⟨8, 11⟩, status := 204, headers := [],
    unit := none, stream := some "abc".toList, deadline := none }

/-- C1 witness: without `Connection: close` the 204 response gets the
fixed-at-zero strategy and its body reads as zero bytes. -/
theorem bodiless_without_close_reads_zero_inst :
    resp204.into_reader_strategy = .limited 0 ∧ resp204.into_string = some (.ok []) :=
  bodiless_without_close_reads_zero resp204 "abc".toList rfl (Or.inr (Or.inl rfl))
    (fun _ hv => Option.noConfusion hv) rfl

/-- C5: for a non-HTTP/1.0, non-HEAD response whose status is neither 204
nor 304, any present non-empty `Transfer-Encoding` value selects the
chunk-decoding strategy — regardless of any `Content-Length` (or any other
header) also present. -/
theorem transfer_encoding_chunked_wins (r : Response) (enc : List Char)
    (hver : eqIgnoreAsciiCase r.http_version "HTTP/1.0".toList = false)
    (hhead : (r.unit.map RequestUnit.is_head).getD false = false)
    (h204 : r.status ≠ 204) (h304 : r.status ≠ 304)
    (hte : r.header "transfer-encoding".toList = some enc) (hne : enc ≠ []) :
    r.into_reader_strategy = .chunked := by
  have h1 : (r.status == 204) = false := beq_eq_false_iff_ne.mpr h204
  have h2 : (r.status == 304) = false := beq_eq_false_iff_ne.mpr h304
  have h3 : enc.isEmpty = false := by
    cases enc with
    | nil => exact absurd rfl hne
    | cons c cs => rfl
  simp only [Response.into_reader_strategy]
  rw [hver, hhead, hte]
  simp [h1, h2, h3]

/-- A 200 response with both `Transfer-Encoding: gzip` and
`Content-Length: 5` (C5's witness input). -/
def respTE : Response :=
  { url := none, status_line := "HTTP/1.1 200 OK".toList, index := ⟨8, 11⟩, status := 200,
    headers := [⟨"Transfer-Encoding".toList, "gzip".toList⟩,
                ⟨"Content-Length".toList, "5".toList⟩],
    unit := none, stream := some "hello".toList, deadline := none }

/-- C5 witness: `Transfer-Encoding: gzip` (not the literal `chunked`)
beats the `Content-Length: 5` also present. -/
theorem transfer_encoding_chunked_wins_inst :
    respTE.into_reader_strategy = .chunked :=
  transfer_encoding_chunked_wins respTE "gzip".toList rfl rfl (by decide) (by decide)
    rfl (by decide)

/-- C2 (amended): `parse_status_line` fails with `BadStatus` exactly when
the line has fewer than TWO space-separated fields (a third field is never
required: `splitn(3, ' ')` is only asked for two tokens), when the version
token is shorter than 5 bytes, when the code token is shorter than 2
bytes, or when the code token does not parse as a `u16`; on a line meeting
all these requirements it succeeds with that numeric code and the two
token-end indices. -/
theorem parse_status_line_cases (line : List Char) :
    (∀ hv, splitn ' ' 3 line = [hv] → parse_status_line line = .error .badStatus)
    ∧ (∀ hv st rest, splitn ' ' 3 line = hv :: st :: rest →
        (utf8Len hv < 5 → parse_status_line line = .error .badStatus)
        ∧ (utf8Len st < 2 → parse_status_line line = .error .badStatus)
        ∧ (parseU16 st = none → parse_status_line line = .error .badStatus)
        ∧ (∀ code, 5 ≤ utf8Len hv → 2 ≤ utf8Len st → parseU16 st = some code →
            parse_status_line line = .ok (⟨utf8Len hv, utf8Len hv + utf8Len st⟩, code))) := by
  constructor
  · intro hv hsp
    unfold parse_status_line
    rw [hsp]
    by_cases h5 : utf8Len hv < 5 <;> simp [h5]
  · intro hv st rest hsp
    unfold parse_status_line
    rw [hsp]
    refine ⟨?_, ?_, ?_, ?_⟩
    · intro h5
      simp [h5]
    · intro h2
      by_cases h5 : utf8Len hv < 5 <;> simp [h5, h2]
    · intro hp
      by_cases h5 : utf8Len hv < 5
      · simp [h5]
      · by_cases h2 : utf8Len st < 2 <;> simp [h5, h2, hp]
    · intro code h5 h2 hp
      have h5' : ¬utf8Len hv < 5 := by omega
      have h2' : ¬utf8Len st < 2 := by omega
      simp [h5', h2', hp]

/-- C2 counterexample: `HTTP/1.1 200` has only two space-separated fields,
yet `parse_status_line` succeeds (with code 200) instead of failing with
`BadStatus` as the claim requires of lines with fewer than three fields. -/
theorem parse_status_line_two_fields_ok :
    splitn ' ' 3 "HTTP/1.1 200".toList = ["HTTP/1.1".toList, "200".toList]
    ∧ parse_status_line "HTTP/1.1 200".toList = .ok (⟨8, 11⟩, 200) :=
  ⟨rfl, rfl⟩

/-- C2 witness: a well-formed status line parses to its numeric code and
token-end indices. -/
theorem parse_status_line_cases_inst :
    parse_status_line "HTTP/1.1 200 OK".toList = .ok (⟨8, 11⟩, 200) :=
  ((parse_status_line_cases "HTTP/1.1 200 OK".toList).2 "HTTP/1.1".toList "200".toList
    ["OK".toList] (by rfl)).2.2.2 200 (by decide) (by decide) (by rfl)

/-- C10: every `Response` produced by the public construction routes —
`from_str` or `Response::new` — has its stream attached, so `into_reader`
never reaches the `expect("No reader in response?!")` panic (modelled by
`into_reader` returning `some`). -/
theorem public_construction_sets_stream :
    (∀ s r, Response.from_str s = .ok r → r.into_reader.isSome = true)
    ∧ (∀ st t b r, Response.new st t b = .ok r → r.into_reader.isSome = true) := by
  have key : ∀ s r, Response.from_str s = .ok r → r.into_reader.isSome = true := by
    intro s r h
    unfold Response.from_str at h
    cases hd : do_from_read s with
    | error e => rw [hd] at h; exact absurd h (by simp)
    | ok p =>
      rw [hd] at h
      simp only [Except.ok.injEq] at h
      rw [← h]
      simp [Response.into_reader, set_stream]
  refine ⟨key, fun st t b r h => ?_⟩
  unfold Response.new at h
  exact key _ r h

/-- The response `from_str` produces for C10's witness input. -/
def respHi : Response :=
  { url := some [], status_line := "HTTP/1.1 200 OK".toList, index := ⟨8, 11⟩, status := 200,
    headers := [], unit := none, stream := some "hi".toList, deadline := none }

/-- C10 witness: a parsed response has its stream set and `into_reader`
does not panic. -/
theorem public_construction_sets_stream_inst :
    Response.from_str "HTTP/1.1 200 OK\r\n\r\nhi".toList = .ok respHi
    ∧ respHi.into_reader.isSome = true :=
  ⟨rfl, public_construction_sets_stream.1 "HTTP/1.1 200 OK\r\n\r\nhi".toList respHi rfl⟩


/-- Every value below 10 formats to one of the ten digit characters. -/
theorem digitChar_mem (m : Nat) (h : m < 10) :
    digitChar m ∈ ['0', '1', '2', '3', '4', '5', '6', '7', '8', '9'] := by
  interval_cases m <;> decide

/-- Digit characters occupy one UTF-8 byte. -/
theorem digit_utf8Size {c : Char}
    (h : c ∈ ['0', '1', '2', '3', '4', '5', '6', '7', '8', '9']) : c.utf8Size = 1 := by
  fin_cases h <;> rfl

/-- Digit characters are not space, CR, LF or plus, and satisfy `isDigit`. -/
theorem digit_facts {c : Char}
    (h : c ∈ ['0', '1', '2', '3', '4', '5', '6', '7', '8', '9']) :
    c ≠ ' ' ∧ c ≠ '\r' ∧ c ≠ '\n' ∧ c ≠ '+' ∧ c.isDigit = true := by
  fin_cases h <;> refine ⟨by decide, by decide, by decide, by decide, by decide⟩

/-- Numeric value of a formatted digit character. -/
theorem digitChar_val (m : Nat) (h : m < 10) : (digitChar m).toNat - 48 = m := by
  interval_cases m <;> rfl

/-- Characters of a formatted number are digit characters (fuelled form). -/
theorem natToDigitsAux_mem (fuel : Nat) : ∀ n, n < fuel →
    ∀ c ∈ natToDigitsAux fuel n, c ∈ ['0', '1', '2', '3', '4', '5', '6', '7', '8', '9'] := by
  induction fuel with
  | zero => intro n h; omega
  | succ f ih =>
    intro n h c hc
    unfold natToDigitsAux at hc
    by_cases h10 : n < 10
    · simp only [h10, if_true, List.mem_singleton] at hc
      exact hc ▸ digitChar_mem n h10
    · simp only [h10, if_false, List.mem_append, List.mem_singleton] at hc
      rcases hc with hc | hc
      · have hdiv : n / 10 < n := Nat.div_lt_self (by omega) (by norm_num)
        exact ih (n / 10) (by omega) c hc
      · exact hc ▸ digitChar_mem (n % 10) (Nat.mod_lt n (by omega))

/-- Characters of a formatted number are digit characters. -/
theorem natToDigits_mem (n : Nat) :
    ∀ c ∈ natToDigits n, c ∈ ['0', '1', '2', '3', '4', '5', '6', '7', '8', '9'] :=
  natToDigitsAux_mem (n + 1) n (by omega)

/-- Formatting never yields the empty string (fuelled form). -/
theorem natToDigitsAux_ne_nil (fuel n : Nat) (h : n < fuel) :
    natToDigitsAux fuel n ≠ [] := by
  cases fuel with
  | zero => omega
  | succ f =>
    unfold natToDigitsAux
    by_cases h10 : n < 10 <;> simp [h10]

/-- Numbers of at least 10 format to at least two characters. -/
theorem natToDigits_len2 (n : Nat) (h10 : 10 ≤ n) : 2 ≤ (natToDigits n).length := by
  unfold natToDigits
  rw [show n + 1 = (n : Nat) + 1 from rfl]
  unfold natToDigitsAux
  have hn : ¬n < 10 := by omega
  simp only [hn, if_false, List.length_append, List.length_singleton]
  have hdiv : n / 10 < n := Nat.div_lt_self (by omega) (by norm_num)
  have hne := natToDigitsAux_ne_nil n (n / 10) (by omega)
  have hpos := List.length_pos.mpr hne
  omega

/-- Parsing a formatted number recovers it (fuelled form). -/
theorem parseNatDigits_natToDigitsAux (fuel : Nat) : ∀ n, n < fuel →
    parseNatDigits (natToDigitsAux fuel n) = n := by
  induction fuel with
  | zero => intro n h; omega
  | succ f ih =>
    intro n h
    unfold natToDigitsAux
    by_cases h10 : n < 10
    · simp only [h10, if_true]
      unfold parseNatDigits
      simp only [List.foldl_cons, List.foldl_nil]
      have := digitChar_val n h10
      omega
    · simp only [h10, if_false]
      unfold parseNatDigits
      rw [List.foldl_append]
      have hdiv : n / 10 < n := Nat.div_lt_self (by omega) (by norm_num)
      have ihv := ih (n / 10) (by omega)
      unfold parseNatDigits at ihv
      rw [ihv]
      simp only [List.foldl_cons, List.foldl_nil]
      have := digitChar_val (n % 10) (Nat.mod_lt n (by omega))
      omega

/-- Parsing a formatted number recovers it. -/
theorem parseNatDigits_natToDigits (n : Nat) : parseNatDigits (natToDigits n) = n :=
  parseNatDigits_natToDigitsAux (n + 1) n (by omega)

/-- A formatted `u16` value round-trips through the `u16` parse. -/
theorem parseU16_natToDigits (n : Nat) (hmax : n ≤ 65535) :
    parseU16 (natToDigits n) = some n := by
  have hmem := natToDigits_mem n
  have hparse := parseNatDigits_natToDigits n
  unfold parseU16 parseUIntRadix10
  cases hD : natToDigits n with
  | nil => exact absurd hD (natToDigitsAux_ne_nil (n + 1) n (by omega))
  | cons c cs =>
    rw [hD] at hmem hparse
    have hplus : ¬(c = '+') := (digit_facts (hmem c (List.mem_cons_self c cs))).2.2.2.1
    have hall : (c :: cs).all Char.isDigit = true := by
      rw [List.all_eq_true]
      intro x hx
      exact (digit_facts (hmem x hx)).2.2.2.2
    simp only [hplus, if_false, List.isEmpty_cons, hall, if_true, hparse, hmax]
    simp [hmax]

/-- Byte length of a cons. -/
theorem utf8Len_cons (c : Char) (l : List Char) :
    utf8Len (c :: l) = c.utf8Size + utf8Len l := by
  simp [utf8Len]

/-- Byte length distributes over append. -/
theorem utf8Len_append (a b : List Char) : utf8Len (a ++ b) = utf8Len a + utf8Len b := by
  simp [utf8Len]

/-- Byte length equals character count on one-byte characters. -/
theorem utf8Len_of_ascii (l : List Char) (h : ∀ c ∈ l, c.utf8Size = 1) :
    utf8Len l = l.length := by
  induction l with
  | nil => rfl
  | cons c cs ih =>
    rw [utf8Len_cons, h c (List.mem_cons_self c cs),
      ih (fun x hx => h x (List.mem_cons_of_mem c hx))]
    simp [Nat.add_comm]

/-- Slicing `[0..a.len()]` out of `a ++ b` yields `a`. -/
theorem utf8Take_append (a b : List Char) : utf8Take (utf8Len a) (a ++ b) = a := by
  induction a with
  | nil => cases b <;> simp [utf8Take, utf8Len]
  | cons c cs ih =>
    rw [List.cons_append, utf8Len_cons]
    unfold utf8Take
    have hpos := Char.utf8Size_pos c
    have hne : ¬(c.utf8Size + utf8Len cs = 0) := by omega
    simp only [hne, if_false]
    rw [show c.utf8Size + utf8Len cs - c.utf8Size = utf8Len cs by omega]
    rw [ih]

/-- Slicing `[a.len()..]` out of `a ++ b` yields `b`. -/
theorem utf8Drop_append (a b : List Char) : utf8Drop (utf8Len a) (a ++ b) = b := by
  induction a with
  | nil => cases b <;> simp [utf8Drop, utf8Len]
  | cons c cs ih =>
    rw [List.cons_append, utf8Len_cons]
    unfold utf8Drop
    have hpos := Char.utf8Size_pos c
    have hne : ¬(c.utf8Size + utf8Len cs = 0) := by omega
    simp only [hne, if_false]
    rw [show c.utf8Size + utf8Len cs - c.utf8Size = utf8Len cs by omega]
    rw [ih]

/-- Splitting at the first separator around an explicit occurrence. -/
theorem splitFirst_append (sep : Char) (a b : List Char) (h : sep ∉ a) :
    splitFirst sep (a ++ sep :: b) = some (a, b) := by
  induction a with
  | nil => simp [splitFirst]
  | cons c cs ih =>
    rw [List.cons_append]
    unfold splitFirst
    have hc : ¬(c = sep) := fun e => h (e ▸ List.mem_cons_self c cs)
    simp only [hc, if_false]
    rw [ih (fun hm => h (List.mem_cons_of_mem c hm))]
    rfl

/-- A line with two separator-free tokens splits into exactly three fields. -/
theorem splitn_three (v d t : List Char) (hv : ' ' ∉ v) (hd : ' ' ∉ d) :
    splitn ' ' 3 (v ++ ' ' :: (d ++ ' ' :: t)) = [v, d, t] := by
  show splitn ' ' (1 + 2) (v ++ ' ' :: (d ++ ' ' :: t)) = [v, d, t]
  unfold splitn
  rw [splitFirst_append ' ' v _ hv]
  show (v :: splitn ' ' 2 (d ++ ' ' :: t)) = [v, d, t]
  unfold splitn
  rw [splitFirst_append ' ' d t hd]
  rfl


/-- Line reading consumes exactly up to the first CRLF (loop form). -/
theorem read_next_line_core_append (xs : List Char)
    (h : ∀ c ∈ xs, c ≠ '\r' ∧ c ≠ '\n') :
    ∀ acc prevCr rest, read_next_line_core acc prevCr (xs ++ '\r' :: '\n' :: rest)
      = .ok (acc ++ xs, rest) := by
  induction xs with
  | nil =>
    intro acc prevCr rest
    rw [List.nil_append]
    unfold read_next_line_core
    simp only [show (('\r' : Char) == '\n' && prevCr) = false by simp, if_false]
    unfold read_next_line_core
    simp only [show (('\n' : Char) == '\n' && ('\r' : Char) == '\r') = true by decide,
      if_true]
    rw [List.dropLast_concat]
    simp
  | cons x xs ih =>
    intro acc prevCr rest
    obtain ⟨hxr, hxn⟩ := h x (List.mem_cons_self x xs)
    rw [List.cons_append]
    unfold read_next_line_core
    simp only [show ((x == '\n') && prevCr) = false by simp [hxn], if_false,
      show (x == '\r') = false by simp [hxr]]
    rw [ih (fun c hc => h c (List.mem_cons_of_mem x hc)) (acc ++ [x]) false rest]
    simp

/-- Line reading consumes exactly up to the first CRLF: a CR/LF-free
prefix is returned as the line, the rest is left unread. -/
theorem read_next_line_append (xs rest : List Char)
    (h : ∀ c ∈ xs, c ≠ '\r' ∧ c ≠ '\n') :
    read_next_line (xs ++ '\r' :: '\n' :: rest) = .ok (xs, rest) := by
  unfold read_next_line
  rw [read_next_line_core_append xs h [] false rest]
  simp

/-- Trimming absorbs a leading space in front of already-trimmed text. -/
theorem rustTrim_cons_space (t : List Char) (h : rustTrim t = t) :
    rustTrim (' ' :: t) = t := by
  show rustTrimEnd (rustTrimStart (' ' :: t)) = t
  unfold rustTrimStart
  rw [List.dropWhile_cons]
  simp only [show isRustWhitespace ' ' = true by decide, if_true]
  exact h


/-- Evaluation of `Response::new`: for a status of 10..65535 and a
status text free of CR and LF, the synthesized status line parses back and
the response shell holds the formatted line, the token indices, the empty
header list, and a stream of the body followed by the formatted newline. -/
theorem response_new_eq (status : Nat) (t body : List Char)
    (h10 : 10 ≤ status) (hmax : status ≤ 65535)
    (ht : ∀ c ∈ t, c ≠ '\r' ∧ c ≠ '\n') :
    Response.new status t body = .ok
      { url := some [],
        status_line := "HTTP/1.1 ".toList ++ natToDigits status ++ ' ' :: t,
        index := ⟨8, 8 + (natToDigits status).length⟩,
        status := status, headers := [], unit := none,
        stream := some (body ++ ['\n']), deadline := none } := by
  have hmem := natToDigits_mem status
  have hL : ∀ c ∈ ("HTTP/1.1 ".toList ++ natToDigits status ++ ' ' :: t),
      c ≠ '\r' ∧ c ≠ '\n' := by
    intro c hc
    rcases List.mem_append.mp hc with hc | hc
    · rcases List.mem_append.mp hc with hc | hc
      · have hH : ∀ c ∈ "HTTP/1.1 ".toList, c ≠ '\r' ∧ c ≠ '\n' := by decide
        exact hH c hc
      · have := digit_facts (hmem c hc)
        exact ⟨this.2.1, this.2.2.1⟩
    · rcases List.mem_cons.mp hc with hc | hc
      · subst hc
        exact ⟨by decide, by decide⟩
      · exact ht c hc
  have hD : utf8Len (natToDigits status) = (natToDigits status).length :=
    utf8Len_of_ascii _ (fun c hc => digit_utf8Size (hmem c hc))
  have hps : parse_status_line ("HTTP/1.1 ".toList ++ natToDigits status ++ ' ' :: t)
      = .ok (⟨8, 8 + (natToDigits status).length⟩, status) := by
    have hshape : "HTTP/1.1 ".toList ++ natToDigits status ++ ' ' :: t
        = "HTTP/1.1".toList ++ ' ' :: (natToDigits status ++ ' ' :: t) := by
      simp
    have hsp : splitn ' ' 3 ("HTTP/1.1 ".toList ++ natToDigits status ++ ' ' :: t)
        = ["HTTP/1.1".toList, natToDigits status, t] := by
      rw [hshape]
      refine splitn_three _ _ _ (by decide) ?_
      intro hs
      exact (digit_facts (hmem ' ' hs)).1 rfl
    unfold parse_status_line
    rw [hsp]
    have hlen := natToDigits_len2 status h10
    simp only [show utf8Len "HTTP/1.1".toList = 8 from rfl, hD,
      show ¬((8 : Nat) < 5) by omega, if_false,
      show ¬((natToDigits status).length < 2) by omega,
      parseU16_natToDigits status hmax]
  have hrest : read_next_line ('\r' :: '\n' :: (body ++ ['\n']))
      = .ok ([], body ++ ['\n']) := by
    have := read_next_line_append [] (body ++ ['\n']) (by intro c hc; cases hc)
    simpa using this
  have hhd : parseHeaders (('\r' :: '\n' :: (body ++ ['\n'])).length + 1)
      ('\r' :: '\n' :: (body ++ ['\n'])) = .ok ([], body ++ ['\n']) := by
    unfold parseHeaders
    rw [hrest]
    simp
  have hdfr : do_from_read (("HTTP/1.1 ".toList ++ natToDigits status ++ ' ' :: t)
        ++ '\r' :: '\n' :: ('\r' :: '\n' :: (body ++ ['\n'])))
      = .ok ({ url := none,
               status_line := "HTTP/1.1 ".toList ++ natToDigits status ++ ' ' :: t,
               index := ⟨8, 8 + (natToDigits status).length⟩,
               status := status, headers := [], unit := none,
               stream := none, deadline := none }, body ++ ['\n']) := by
    unfold do_from_read
    rw [read_next_line_append _ _ hL]
    dsimp only
    rw [hps]
    dsimp only
    rw [hhd]
  have hfmt : "HTTP/1.1 ".toList ++ natToDigits status ++ [' '] ++ t
      ++ ['\r', '\n', '\r', '\n'] ++ body ++ ['\n']
      = ("HTTP/1.1 ".toList ++ natToDigits status ++ ' ' :: t)
        ++ '\r' :: '\n' :: ('\r' :: '\n' :: (body ++ ['\n'])) := by
    simp
  unfold Response.new Response.from_str
  rw [hfmt, hdfr]
  rfl

/-- C3 (amended): for every status in 10..65535 other than 204 and 304 and
every status text that is free of CR and LF and equal to its own trim,
`Response::new` succeeds, `status()` and `status_text()` return the given
values — but `into_string()` returns the given body followed by a newline,
because the formatting template appends `\n` to the body. -/
theorem response_new_roundtrip (status : Nat) (t body : List Char)
    (h10 : 10 ≤ status) (hmax : status ≤ 65535)
    (h204 : status ≠ 204) (h304 : status ≠ 304)
    (ht : ∀ c ∈ t, c ≠ '\r' ∧ c ≠ '\n') (htrim : rustTrim t = t) :
    (Response.new status t body).map Response.status = .ok status
    ∧ (Response.new status t body).map Response.status_text = .ok t
    ∧ (Response.new status t body).map Response.into_string
        = .ok (some (.ok (body ++ ['\n']))) := by
  rw [response_new_eq status t body h10 hmax ht]
  have hD : utf8Len (natToDigits status) = (natToDigits status).length :=
    utf8Len_of_ascii _ (fun c hc => digit_utf8Size (natToDigits_mem status c hc))
  refine ⟨rfl, ?_, ?_⟩
  · refine congrArg Except.ok ?_
    unfold Response.status_text
    dsimp only
    have hshape : "HTTP/1.1 ".toList ++ natToDigits status ++ ' ' :: t
        = ("HTTP/1.1 ".toList ++ natToDigits status) ++ ' ' :: t := by
      simp
    have hidx : 8 + (natToDigits status).length + 1
        = utf8Len ("HTTP/1.1 ".toList ++ natToDigits status) := by
      rw [utf8Len_append, hD, show utf8Len "HTTP/1.1 ".toList = 9 from rfl]
      omega
    rw [hshape, hidx, utf8Drop_append]
    exact rustTrim_cons_space t htrim
  · refine congrArg Except.ok ?_
    have hver : Response.http_version
        { url := some [],
          status_line := "HTTP/1.1 ".toList ++ natToDigits status ++ ' ' :: t,
          index := ⟨8, 8 + (natToDigits status).length⟩,
          status := status, headers := [], unit := none,
          stream := some (body ++ ['\n']), deadline := none }
        = "HTTP/1.1".toList := by
      unfold Response.http_version
      dsimp only
      have hshape : "HTTP/1.1 ".toList ++ natToDigits status ++ ' ' :: t
          = "HTTP/1.1".toList ++ (' ' :: (natToDigits status ++ ' ' :: t)) := by
        simp
      rw [hshape, show (8 : Nat) = utf8Len "HTTP/1.1".toList from rfl, utf8Take_append]
    have hstrat : Response.into_reader_strategy
        { url := some [],
          status_line := "HTTP/1.1 ".toList ++ natToDigits status ++ ' ' :: t,
          index := ⟨8, 8 + (natToDigits status).length⟩,
          status := status, headers := [], unit := none,
          stream := some (body ++ ['\n']), deadline := none }
        = .untilClose := by
      simp only [Response.into_reader_strategy]
      rw [hver]
      have h1 : (status == 204) = false := beq_eq_false_iff_ne.mpr h204
      have h2 : (status == 304) = false := beq_eq_false_iff_ne.mpr h304
      simp [Response.header, h1, h2,
        show eqIgnoreAsciiCase "HTTP/1.1".toList "HTTP/1.0".toList = false from by decide]
    unfold Response.into_string Response.into_reader
    dsimp only
    rw [hstrat]
    rfl

/-- C3 counterexample: a response built by `Response::new` from body `x`
materializes to `x\n`, not the original body. -/
theorem response_new_appends_newline :
    (Response.new 401 "Authorization Required".toList "x".toList).map Response.into_string
      = .ok (some (.ok "x\n".toList))
    ∧ "x\n".toList ≠ "x".toList :=
  ⟨rfl, by decide⟩

/-- C3 witness: the repo's own doc example (401, Authorization Required,
Please log in) round-trips up to the appended newline. -/
theorem response_new_roundtrip_inst :
    (Response.new 401 "Authorization Required".toList "Please log in".toList).map
        Response.status = .ok 401
    ∧ (Response.new 401 "Authorization Required".toList "Please log in".toList).map
        Response.status_text = .ok "Authorization Required".toList
    ∧ (Response.new 401 "Authorization Required".toList "Please log in".toList).map
        Response.into_string = .ok (some (.ok ("Please log in".toList ++ ['\n']))) :=
  response_new_roundtrip 401 "Authorization Required".toList "Please log in".toList
    (by decide) (by decide) (by decide) (by decide) (by decide) (by rfl)

end Ureq
